import Mathlib

/-!
Verification of the NSI client (`nsi_client.py`).

The embedding models the `NSIClient` class as explicit state
(`metadata_cache`, `oid_dictionary`) threaded through pure functions.
Remote HTTP endpoints are modelled as environment functions:
`PassportEnv` maps an OID to the passport endpoint's response and
`DlEnv` maps `(oid, version)` to the download endpoint's response.
Cooperative async concurrency (`asyncio.gather`) is modelled as running
the per-OID tasks in list order: each task's result depends only on the
environment and its own OID, so the interleaving order is irrelevant to
the final state, and `gather` returns results in task-submission order.
Remote lookups that are actually issued are collected in a `trace`.
-/

set_option autoImplicit false

namespace NSI

universe u

/-! ## Python `dict` model

A Python `dict` is modelled as an association list with unique keys in
insertion order: assignment to an existing key replaces the value in
place, assignment to a fresh key appends. -/

/-- Lookup in the dict model (`d.get(k)` / `d[k]`). -/
def dictLookup {α : Type u} (d : List (String × α)) (k : String) : Option α :=
  match d with
  | [] => none
  | (k', v) :: rest => if k' = k then some v else dictLookup rest k

/-- Membership test in the dict model (`k in d`). -/
def dictContains {α : Type u} (d : List (String × α)) (k : String) : Bool :=
  (dictLookup d k).isSome

/-- Assignment in the dict model (`d[k] = v`). -/
def dictInsert {α : Type u} (d : List (String × α)) (k : String) (v : α) :
    List (String × α) :=
  match d with
  | [] => [(k, v)]
  | (k', v') :: rest =>
    if k' = k then (k, v) :: rest else (k', v') :: dictInsert rest k v

@[simp] theorem dictLookup_nil {α : Type u} (k : String) :
    dictLookup ([] : List (String × α)) k = none := rfl

@[simp] theorem dictLookup_insert_self {α : Type u} (d : List (String × α))
    (k : String) (v : α) : dictLookup (dictInsert d k v) k = some v := by
  induction d with
  | nil => simp [dictInsert, dictLookup]
  | cons p rest ih =>
    obtain ⟨k', v'⟩ := p
    by_cases h : k' = k
    · simp [dictInsert, h, dictLookup]
    · simp [dictInsert, h, dictLookup, ih]

theorem dictLookup_insert_ne {α : Type u} (d : List (String × α))
    (k k' : String) (v : α) (h : k' ≠ k) :
    dictLookup (dictInsert d k v) k' = dictLookup d k' := by
  induction d with
  | nil => simp [dictInsert, dictLookup, Ne.symm h]
  | cons p rest ih =>
    obtain ⟨k'', v''⟩ := p
    by_cases hk : k'' = k
    · subst hk
      simp [dictInsert, dictLookup, Ne.symm h]
    · simp [dictInsert, hk, dictLookup, ih]

theorem dictContains_iff {α : Type u} (d : List (String × α)) (k : String) :
    dictContains d k = true ↔ (dictLookup d k).isSome := by
  simp [dictContains]

theorem dictContains_eq_false {α : Type u} (d : List (String × α)) (k : String) :
    dictContains d k = false ↔ dictLookup d k = none := by
  cases h : dictLookup d k <;> simp [dictContains, h]

/-! ## Data model of the resolver -/

/-- The metadata record built by `get_minimal_metadata`:
`metadata = { 'shortName': ..., 'version': latest.get('version') }`.
`version` is `Option` because `latest.get('version')` may be `None`. -/
structure Metadata where
  shortName : String
  version : Option String
deriving DecidableEq, Repr

/-- The `MetadataResult` dataclass of the source. -/
structure MetadataResult where
  oid : String
  metadata : Option Metadata
  error : Option String := none
deriving DecidableEq, Repr

/-- One JSON object of the passport endpoint's response body; only the
fields the client reads (`shortName`, `version`) are modelled, each
`Option` because `.get` tolerates their absence. -/
structure PassportObj where
  shortName : Option String := none
  version : Option String := none
deriving DecidableEq, Repr

/-- Shape of a successfully parsed passport response body: a JSON list
of objects, a single object, or any other JSON value (on which
`latest.get` raises `AttributeError`). -/
inductive PassportBody where
  | objList (items : List PassportObj)
  | single (o : PassportObj)
  | other
deriving DecidableEq, Repr

/-- Outcome of one passport request: an HTTP response with a status and
a parsed body, or an exception raised by the transport or by JSON
parsing (`session.get`, `response.json()`). -/
inductive PassportResponse where
  | http (status : Nat) (body : PassportBody)
  | exn (msg : String)

/-- The passport endpoint as an environment: each OID determines the
response its lookup produces. -/
def PassportEnv : Type := String → PassportResponse

/-- Mutable state of one `NSIClient` instance: the resolution cache and
the OID→shortName registry. The token, base URLs and timeout set in
`__init__` are transport configuration absorbed into the environment
functions. -/
structure ClientState where
  metadata_cache : List (String × Metadata)
  oid_dictionary : List (String × String)
deriving DecidableEq, Repr

/-- State of a fresh client (`__init__`): both dicts empty. -/
def initClient : ClientState := ⟨[], []⟩

/-- Model of `NSIClient.get_minimal_metadata`. It consumes the response
the environment assigns to `oid` and returns the `MetadataResult`
together with the updated `oid_dictionary` (the method mutates
`self.oid_dictionary` on the success path just before returning).
Branches, in source order: a raised exception is caught by the
`except` and turned into a `Failure`; a non-200 status returns a
`Failure`; a non-empty list body selects its first element; an empty
list or a non-object body makes `latest.get` raise `AttributeError`,
caught by the same `except`; otherwise `shortName` (with the default
placeholder) and `version` are extracted, the registry is updated and
a `Success` is returned. -/
def get_minimal_metadata (env : PassportEnv) (dict : List (String × String))
    (oid : String) : MetadataResult × List (String × String) :=
  match env oid with
  | .exn msg => (⟨oid, none, some msg⟩, dict)
  | .http status body =>
    if status ≠ 200 then
      (⟨oid, none, some ("Ошибка запроса: " ++ toString status)⟩, dict)
    else
      match body with
      | .objList [] =>
        (⟨oid, none, some "AttributeError: list object has no attribute get"⟩, dict)
      | .objList (latest :: _) =>
        let md : Metadata := ⟨latest.shortName.getD "Неизвестный справочник", latest.version⟩
        (⟨oid, some md, none⟩, dictInsert dict oid md.shortName)
      | .single latest =>
        let md : Metadata := ⟨latest.shortName.getD "Неизвестный справочник", latest.version⟩
        (⟨oid, some md, none⟩, dictInsert dict oid md.shortName)
      | .other =>
        (⟨oid, none, some "AttributeError: object has no attribute get"⟩, dict)

/-- Characterisation of when a lookup for `oid` against `env` succeeds
(returns a result with `error = None`): status 200 and a body that is a
non-empty list or a single object. -/
def envSuccess (env : PassportEnv) (oid : String) : Bool :=
  match env oid with
  | .http status body =>
    if status = 200 then
      match body with
      | .objList (_ :: _) => true
      | .single _ => true
      | _ => false
    else false
  | .exn _ => false

/-- The metadata a successful lookup of `oid` against `env` produces
(`none` when the lookup fails). -/
def mmMeta (env : PassportEnv) (oid : String) : Option Metadata :=
  ((get_minimal_metadata env [] oid).1).metadata

theorem mm_fst_ignores_dict (env : PassportEnv) (d d' : List (String × String))
    (oid : String) :
    (get_minimal_metadata env d oid).1 = (get_minimal_metadata env d' oid).1 := by
  unfold get_minimal_metadata
  cases env oid with
  | exn msg => rfl
  | http status body =>
    by_cases h : status = 200
    · cases body with
      | objList items => cases items <;> simp [h]
      | single o => simp [h]
      | other => simp [h]
    · simp [h]

theorem mm_oid (env : PassportEnv) (d : List (String × String)) (oid : String) :
    ((get_minimal_metadata env d oid).1).oid = oid := by
  unfold get_minimal_metadata
  cases env oid with
  | exn msg => rfl
  | http status body =>
    by_cases h : status = 200
    · cases body with
      | objList items => cases items <;> simp [h]
      | single o => simp [h]
      | other => simp [h]
    · simp [h]

theorem mm_success (env : PassportEnv) (d : List (String × String)) (oid : String)
    (h : envSuccess env oid = true) :
    ∃ md : Metadata,
      (get_minimal_metadata env d oid).1 = ⟨oid, some md, none⟩ ∧
      (get_minimal_metadata env d oid).2 = dictInsert d oid md.shortName ∧
      mmMeta env oid = some md := by
  unfold envSuccess at h
  unfold get_minimal_metadata mmMeta get_minimal_metadata
  cases henv : env oid with
  | exn msg => simp [henv] at h
  | http status body =>
    rw [henv] at h
    by_cases hs : status = 200
    · cases body with
      | objList items =>
        cases items with
        | nil => simp [hs] at h
        | cons latest rest =>
          exact ⟨⟨latest.shortName.getD "Неизвестный справочник", latest.version⟩,
            by simp [hs], by simp [hs], by simp [hs]⟩
      | single o =>
        exact ⟨⟨o.shortName.getD "Неизвестный справочник", o.version⟩,
          by simp [hs], by simp [hs], by simp [hs]⟩
      | other => simp [hs] at h
    · simp [hs] at h

theorem mm_fail (env : PassportEnv) (d : List (String × String)) (oid : String)
    (h : envSuccess env oid = false) :
    ∃ msg : String,
      (get_minimal_metadata env d oid).1 = ⟨oid, none, some msg⟩ ∧
      (get_minimal_metadata env d oid).2 = d := by
  unfold envSuccess at h
  unfold get_minimal_metadata
  cases henv : env oid with
  | exn msg => exact ⟨msg, rfl, rfl⟩
  | http status body =>
    rw [henv] at h
    by_cases hs : status = 200
    · cases body with
      | objList items =>
        cases items with
        | nil =>
          exact ⟨"AttributeError: list object has no attribute get",
            by simp [hs], by simp [hs]⟩
        | cons latest rest => simp [hs] at h
      | single o => simp [hs] at h
      | other =>
        exact ⟨"AttributeError: object has no attribute get",
          by simp [hs], by simp [hs]⟩
    · exact ⟨"Ошибка запроса: " ++ toString status, by simp [hs], by simp [hs]⟩

theorem mmMeta_isSome (env : PassportEnv) (oid : String)
    (h : envSuccess env oid = true) : (mmMeta env oid).isSome := by
  obtain ⟨md, _, _, hm⟩ := mm_success env [] oid h
  simp [hm]

theorem mm_error_none_iff (env : PassportEnv) (d : List (String × String))
    (oid : String) :
    ((get_minimal_metadata env d oid).1).error = none ↔ envSuccess env oid = true := by
  by_cases h : envSuccess env oid = true
  · obtain ⟨md, h1, _, _⟩ := mm_success env d oid h
    simp [h1, h]
  · have h' : envSuccess env oid = false := by
      cases henv : envSuccess env oid
      · rfl
      · exact absurd henv h
    obtain ⟨msg, h1, _⟩ := mm_fail env d oid h'
    simp [h1, h']

/-! ## get_all_metadata -/

/-- Model of `asyncio.gather` over the `get_minimal_metadata` tasks of
`get_all_metadata`: each task runs against the environment, threads the
`oid_dictionary` mutations, and `gather` collects the results in
task-submission order. (Each task's result ignores the dictionary —
`mm_fst_ignores_dict` — so the cooperative interleaving order cannot
change the outcome.) -/
def gatherResolve (env : PassportEnv) :
    List String → List (String × String) →
    List MetadataResult × List (String × String)
  | [], d => ([], d)
  | oid :: rest, d =>
    let step := get_minimal_metadata env d oid
    let tail := gatherResolve env rest step.2
    (step.1 :: tail.1, tail.2)

/-- Python truthiness of `result.error` negated: `not result.error` is
true when `error` is `None` or the empty string. -/
def pyFalsyStr : Option String → Bool
  | none => true
  | some s => s.isEmpty

/-- The `for result in results` loop of `get_all_metadata`: a result
with a falsy `error` and non-`None` metadata is written to
`metadata_cache`; every other result only produces a log line. -/
def updateCache : List MetadataResult → List (String × Metadata) →
    List (String × Metadata)
  | [], cache => cache
  | r :: rs, cache =>
    match r.metadata, pyFalsyStr r.error with
    | some md, true => updateCache rs (dictInsert cache r.oid md)
    | _, _ => updateCache rs cache

/-- Result of one `get_all_metadata` call: the returned mapping, the
client state after the call, and the list of OIDs for which a remote
lookup task was launched. -/
structure GamOut where
  mapping : List (String × Metadata)
  state : ClientState
  trace : List String

/-- Model of `NSIClient.get_all_metadata`. Partitions `oids` into
cached and uncached, launches a lookup for every uncached OID, writes
every successful result to the cache, and returns
`\x7boid: cache.get(oid) for oid in oids if oid in cache\x7d` built
over the updated cache. The unconditional `save_oid_dictionary()` call
writes the side file `oid_dictionary.json`; file output is outside the
state model. When `uncached_oids` is empty no session is opened and no
task run, which coincides with `gatherResolve` on `[]`. -/
def get_all_metadata (env : PassportEnv) (st : ClientState)
    (oids : List String) : GamOut :=
  let uncached_oids := oids.filter (fun oid => !dictContains st.metadata_cache oid)
  let gathered := gatherResolve env uncached_oids st.oid_dictionary
  let cache' := updateCache gathered.1 st.metadata_cache
  let mapping := oids.foldl (fun m oid =>
    match dictLookup cache' oid with
    | some md => dictInsert m oid md
    | none => m) []
  ⟨mapping, ⟨cache', gathered.2⟩, uncached_oids⟩

theorem gather_results (env : PassportEnv) (oids : List String)
    (d : List (String × String)) :
    (gatherResolve env oids d).1 =
      oids.map (fun o => (get_minimal_metadata env [] o).1) := by
  induction oids generalizing d with
  | nil => rfl
  | cons o rest ih =>
    simp [gatherResolve, ih, mm_fst_ignores_dict env _ [] o]

theorem gather_dict_fail (env : PassportEnv) (oids : List String)
    (d : List (String × String)) (k : String)
    (h : envSuccess env k = false) :
    dictLookup (gatherResolve env oids d).2 k = dictLookup d k := by
  induction oids generalizing d with
  | nil => rfl
  | cons o rest ih =>
    simp only [gatherResolve]
    rw [ih ((get_minimal_metadata env d o).2)]
    cases ho : envSuccess env o with
    | true =>
      obtain ⟨md, _, h2, _⟩ := mm_success env d o ho
      have hok : o ≠ k := by
        intro he; rw [he, h] at ho; exact Bool.noConfusion ho
      rw [h2, dictLookup_insert_ne _ _ _ _ (Ne.symm hok)]
    | false =>
      obtain ⟨msg, _, h2⟩ := mm_fail env d o ho
      rw [h2]

theorem updateCache_map (env : PassportEnv) (oids : List String)
    (c : List (String × Metadata)) (k : String) :
    dictLookup (updateCache (oids.map (fun o => (get_minimal_metadata env [] o).1)) c) k =
      if k ∈ oids ∧ envSuccess env k = true then mmMeta env k
      else dictLookup c k := by
  induction oids generalizing c with
  | nil => simp [updateCache]
  | cons o rest ih =>
    cases ho : envSuccess env o with
    | true =>
      obtain ⟨md, h1, _, hm⟩ := mm_success env [] o ho
      simp only [List.map_cons, updateCache, h1, pyFalsyStr]
      rw [ih (dictInsert c o md)]
      by_cases hk : k ∈ rest ∧ envSuccess env k = true
      · simp [hk, hk.1]
      · rw [if_neg hk]
        by_cases hko : k = o
        · subst hko
          rw [dictLookup_insert_self]
          simp [ho, hm]
        · rw [dictLookup_insert_ne _ _ _ _ hko]
          have : ¬(k ∈ o :: rest ∧ envSuccess env k = true) := by
            intro ⟨hin, hsk⟩
            rcases List.mem_cons.mp hin with h | h
            · exact hko h
            · exact hk ⟨h, hsk⟩
          rw [if_neg this]
    | false =>
      obtain ⟨msg, h1, _⟩ := mm_fail env [] o ho
      simp only [List.map_cons, updateCache, h1]
      rw [ih c]
      by_cases hko : k = o
      · subst hko; simp [ho]
      · simp [hko]

theorem gam_trace (env : PassportEnv) (st : ClientState) (oids : List String) :
    (get_all_metadata env st oids).trace =
      oids.filter (fun o => !dictContains st.metadata_cache o) := rfl

theorem gam_dict_fail (env : PassportEnv) (st : ClientState) (oids : List String)
    (k : String) (h : envSuccess env k = false) :
    dictLookup (get_all_metadata env st oids).state.oid_dictionary k =
      dictLookup st.oid_dictionary k :=
  gather_dict_fail env _ st.oid_dictionary k h

theorem gam_cache_lookup (env : PassportEnv) (st : ClientState) (oids : List String)
    (k : String) :
    dictLookup (get_all_metadata env st oids).state.metadata_cache k =
      if k ∈ oids ∧ dictContains st.metadata_cache k = false ∧ envSuccess env k = true
      then mmMeta env k else dictLookup st.metadata_cache k := by
  show dictLookup (updateCache
      (gatherResolve env (oids.filter (fun o => !dictContains st.metadata_cache o))
        st.oid_dictionary).1 st.metadata_cache) k = _
  rw [gather_results, updateCache_map]
  by_cases hc : k ∈ oids.filter (fun o => !dictContains st.metadata_cache o) ∧
      envSuccess env k = true
  · have hc' := hc
    rw [List.mem_filter, Bool.not_eq_true', dictContains_eq_false] at hc'
    rw [if_pos hc, if_pos ⟨hc'.1.1, by rw [dictContains_eq_false]; exact hc'.1.2, hc.2⟩]
  · rw [if_neg hc]
    have : ¬(k ∈ oids ∧ dictContains st.metadata_cache k = false ∧
        envSuccess env k = true) := by
      intro ⟨h1, h2, h3⟩
      exact hc ⟨List.mem_filter.mpr ⟨h1, by rw [Bool.not_eq_true']; exact h2⟩, h3⟩
    rw [if_neg this]

theorem gam_cache_contains (env : PassportEnv) (st : ClientState)
    (oids : List String) (k : String) :
    dictContains (get_all_metadata env st oids).state.metadata_cache k = true ↔
      dictContains st.metadata_cache k = true ∨
        (k ∈ oids ∧ envSuccess env k = true) := by
  rw [dictContains_iff, gam_cache_lookup]
  by_cases hc : dictContains st.metadata_cache k = true
  · have h1 : ¬(k ∈ oids ∧ dictContains st.metadata_cache k = false ∧
        envSuccess env k = true) := by
      intro ⟨_, h2, _⟩; rw [hc] at h2; exact Bool.noConfusion h2
    rw [if_neg h1]
    simp [← dictContains_iff, hc]
  · have hc' : dictContains st.metadata_cache k = false := by
      cases h : dictContains st.metadata_cache k
      · rfl
      · exact absurd h hc
    by_cases hm : k ∈ oids ∧ envSuccess env k = true
    · rw [if_pos ⟨hm.1, hc', hm.2⟩]
      simp [mmMeta_isSome env k hm.2, hm]
    · have h1 : ¬(k ∈ oids ∧ dictContains st.metadata_cache k = false ∧
          envSuccess env k = true) := by
        intro ⟨h2, _, h3⟩; exact hm ⟨h2, h3⟩
      rw [if_neg h1]
      rw [dictContains_eq_false] at hc'
      simp [hc', hc, hm]

theorem mapping_foldl (cache : List (String × Metadata)) (oids : List String)
    (m0 : List (String × Metadata)) (k : String) :
    dictLookup (oids.foldl (fun m oid =>
      match dictLookup cache oid with
      | some md => dictInsert m oid md
      | none => m) m0) k =
    if k ∈ oids ∧ (dictLookup cache k).isSome then dictLookup cache k
    else dictLookup m0 k := by
  induction oids generalizing m0 with
  | nil => simp
  | cons o rest ih =>
    simp only [List.foldl_cons]
    rw [ih]
    by_cases hk : k ∈ rest ∧ (dictLookup cache k).isSome
    · simp [hk, hk.1]
    · rw [if_neg hk]
      by_cases hko : k = o
      · subst hko
        cases hfound : dictLookup cache k with
        | some md =>
          simp only [hfound, dictLookup_insert_self]
          simp
        | none =>
          simp only [hfound]
          simp
      · have hnot : ¬(k ∈ o :: rest ∧ (dictLookup cache k).isSome) := by
          intro ⟨hin, hsk⟩
          rcases List.mem_cons.mp hin with h | h
          · exact hko h
          · exact hk ⟨h, hsk⟩
        rw [if_neg hnot]
        cases hfound : dictLookup cache o with
        | some md =>
          simp only [hfound]
          rw [dictLookup_insert_ne _ _ _ _ hko]
        | none => simp only [hfound]

theorem gam_mapping_lookup (env : PassportEnv) (st : ClientState)
    (oids : List String) (k : String) :
    dictLookup (get_all_metadata env st oids).mapping k =
      if k ∈ oids
      then dictLookup (get_all_metadata env st oids).state.metadata_cache k
      else none := by
  show dictLookup (oids.foldl _ []) k = _
  rw [mapping_foldl]
  have hC : (get_all_metadata env st oids).state.metadata_cache =
      updateCache (gatherResolve env
        (oids.filter (fun oid => !dictContains st.metadata_cache oid))
        st.oid_dictionary).1 st.metadata_cache := rfl
  rw [← hC]
  by_cases hmem : k ∈ oids
  · rw [if_pos hmem]
    cases h : dictLookup (get_all_metadata env st oids).state.metadata_cache k with
    | some md => simp [hmem]
    | none => simp [hmem]
  · rw [if_neg hmem, if_neg (by intro ⟨h1, _⟩; exact hmem h1)]
    rfl

/-! ## Sequences of get_all_metadata calls on one client instance -/

/-- One `get_all_metadata` invocation: the network state it observes
and the OID list it is given. -/
structure GamCall where
  env : PassportEnv
  oids : List String

/-- Runs a sequence of `get_all_metadata` calls on one client
instance, returning the final state and the per-call remote-lookup
traces in call order. -/
def runOps : ClientState → List GamCall → ClientState × List (List String)
  | st, [] => (st, [])
  | st, call :: rest =>
    let g := get_all_metadata call.env st call.oids
    let tail := runOps g.state rest
    (tail.1, g.trace :: tail.2)

theorem runOps_cache_contains (ops : List GamCall) (st : ClientState) (k : String) :
    dictContains (runOps st ops).1.metadata_cache k = true ↔
      dictContains st.metadata_cache k = true ∨
        ∃ call ∈ ops, k ∈ call.oids ∧ envSuccess call.env k = true := by
  induction ops generalizing st with
  | nil => simp [runOps]
  | cons call rest ih =>
    show dictContains (runOps (get_all_metadata call.env st call.oids).state rest).1.metadata_cache k = true ↔ _
    rw [ih, gam_cache_contains]
    constructor
    · rintro ((h | h) | ⟨c, hc, h⟩)
      · exact Or.inl h
      · exact Or.inr ⟨call, List.mem_cons_self call rest, h⟩
      · exact Or.inr ⟨c, List.mem_cons_of_mem call hc, h⟩
    · rintro (h | ⟨c, hc, h⟩)
      · exact Or.inl (Or.inl h)
      · rcases List.mem_cons.mp hc with hh | hh
        · subst hh; exact Or.inl (Or.inr h)
        · exact Or.inr ⟨c, hh, h⟩

theorem runOps_traces_fail (ops : List GamCall) (st : ClientState) (k : String)
    (hfail : ∀ call ∈ ops, envSuccess call.env k = false)
    (hnc : dictContains st.metadata_cache k = false) :
    ∀ p ∈ ops.zip (runOps st ops).2, k ∈ p.1.oids → k ∈ p.2 := by
  induction ops generalizing st with
  | nil => intro p hp; simp [runOps] at hp
  | cons call rest ih =>
    intro p hp hk
    have hzip : (call :: rest).zip (runOps st (call :: rest)).2 =
        (call, (get_all_metadata call.env st call.oids).trace) ::
        rest.zip (runOps (get_all_metadata call.env st call.oids).state rest).2 := rfl
    rw [hzip] at hp
    rcases List.mem_cons.mp hp with h | h
    · subst h
      rw [gam_trace, List.mem_filter]
      exact ⟨hk, by simp [hnc]⟩
    · have hnc' : dictContains (get_all_metadata call.env st call.oids).state.metadata_cache k = false := by
        cases hb : dictContains (get_all_metadata call.env st call.oids).state.metadata_cache k
        · rfl
        · exfalso
          rcases (gam_cache_contains call.env st call.oids k).mp hb with hh | ⟨_, hh⟩
          · rw [hnc] at hh; exact Bool.noConfusion hh
          · rw [hfail call (List.mem_cons_self call rest)] at hh
            exact Bool.noConfusion hh.symm
      exact ih (get_all_metadata call.env st call.oids).state
        (fun c hc => hfail c (List.mem_cons_of_mem call hc)) hnc' p h hk

/-! ## Claim theorems on the resolver -/

/-- C1: for every sequence of `get_all_metadata` operations on one
client instance started fresh, an identifier has a resolution-cache
entry if and only if some operation looked it up and the lookup
succeeded (no error); and if every operation's environment fails for
that identifier, every call that includes it launches a fresh remote
lookup for it (the identifier appears in that call's trace). -/
theorem C1_cache_success_invariant (ops : List GamCall) (k : String) :
    (dictContains (runOps initClient ops).1.metadata_cache k = true ↔
      ∃ call ∈ ops, k ∈ call.oids ∧ envSuccess call.env k = true) ∧
    ((∀ call ∈ ops, envSuccess call.env k = false) →
      ∀ p ∈ ops.zip (runOps initClient ops).2, k ∈ p.1.oids → k ∈ p.2) := by
  constructor
  · rw [runOps_cache_contains]
    simp [initClient, dictContains, dictLookup]
  · intro h
    exact runOps_traces_fail ops initClient k h rfl

/-- Environment used by the C1 witness: every passport request answers
with HTTP 500. -/
def envFail500 : PassportEnv := fun _ => PassportResponse.http 500 PassportBody.other

theorem C1_witness :
    dictContains (runOps initClient [⟨envFail500, ["1.2"]⟩]).1.metadata_cache "1.2" = false ∧
    "1.2" ∈ ((⟨envFail500, ["1.2"]⟩ : GamCall), (["1.2"] : List String)).2 := by
  have h := C1_cache_success_invariant [⟨envFail500, ["1.2"]⟩] "1.2"
  constructor
  · cases hb : dictContains (runOps initClient [⟨envFail500, ["1.2"]⟩]).1.metadata_cache "1.2" with
    | false => rfl
    | true =>
      obtain ⟨c, hc, _, hs⟩ := h.1.mp hb
      rw [List.mem_singleton] at hc
      subst hc
      exact absurd hs (by decide)
  · exact h.2 (by intro c hc; rw [List.mem_singleton] at hc; subst hc; rfl)
      (⟨envFail500, ["1.2"]⟩, ["1.2"]) (List.mem_singleton.mpr rfl) (by simp)

/-- C2: an identifier (not previously cached) whose remote lookup
returns an HTTP status other than 200 is absent from the mapping
returned by `get_all_metadata`, absent from the resolution cache, and
leaves its `oid_dictionary` entry unchanged. -/
theorem C2_non200_isolated (env : PassportEnv) (st : ClientState)
    (oids : List String) (oid : String) (status : Nat) (body : PassportBody)
    (henv : env oid = PassportResponse.http status body) (hs : status ≠ 200)
    (hnc : dictContains st.metadata_cache oid = false) :
    dictLookup (get_all_metadata env st oids).mapping oid = none ∧
    dictLookup (get_all_metadata env st oids).state.metadata_cache oid = none ∧
    dictLookup (get_all_metadata env st oids).state.oid_dictionary oid =
      dictLookup st.oid_dictionary oid := by
  have hfail : envSuccess env oid = false := by
    unfold envSuccess
    rw [henv]
    simp [hs]
  have hcache : dictLookup (get_all_metadata env st oids).state.metadata_cache oid = none := by
    rw [gam_cache_lookup]
    rw [if_neg (by intro ⟨_, _, h3⟩; rw [hfail] at h3; exact Bool.noConfusion h3)]
    exact (dictContains_eq_false st.metadata_cache oid).mp hnc
  refine ⟨?_, hcache, gam_dict_fail env st oids oid hfail⟩
  rw [gam_mapping_lookup]
  by_cases hm : oid ∈ oids
  · rw [if_pos hm, hcache]
  · rw [if_neg hm]

/-- Environment used by the C2 witness: every passport request answers
with HTTP 404 and a well-formed body that is discarded. -/
def envNotFound : PassportEnv :=
  fun _ => PassportResponse.http 404 (PassportBody.single ⟨some "x", some "1"⟩)

theorem C2_witness :
    dictLookup (get_all_metadata envNotFound initClient ["a"]).mapping "a" = none ∧
    dictLookup (get_all_metadata envNotFound initClient ["a"]).state.metadata_cache "a" = none ∧
    dictLookup (get_all_metadata envNotFound initClient ["a"]).state.oid_dictionary "a" =
      dictLookup initClient.oid_dictionary "a" :=
  C2_non200_isolated envNotFound initClient ["a"] "a" 404
    (PassportBody.single ⟨some "x", some "1"⟩) rfl (by decide) rfl

/-- C5: on every failing remote response (non-200 status, malformed
body, or a transport/parse exception) `get_minimal_metadata` returns a
`MetadataResult` that carries the requested identifier, no metadata,
and a reason string — the `try`/`except` makes the embedding a total
function, so no exception reaches the caller. -/
theorem C5_failure_total (env : PassportEnv) (d : List (String × String))
    (oid : String) (h : envSuccess env oid = false) :
    ((get_minimal_metadata env d oid).1).oid = oid ∧
    ((get_minimal_metadata env d oid).1).metadata = none ∧
    ∃ msg, ((get_minimal_metadata env d oid).1).error = some msg := by
  obtain ⟨msg, h1, _⟩ := mm_fail env d oid h
  rw [h1]
  exact ⟨rfl, rfl, msg, rfl⟩

/-- Environment used by the C5 witness: the transport raises. -/
def envRaise : PassportEnv := fun _ => PassportResponse.exn "Timeout"

theorem C5_witness :
    ((get_minimal_metadata envRaise [] "x").1).oid = "x" ∧
    ((get_minimal_metadata envRaise [] "x").1).metadata = none ∧
    ∃ msg, ((get_minimal_metadata envRaise [] "x").1).error = some msg :=
  C5_failure_total envRaise [] "x" rfl

theorem gam_all_cached (env2 : PassportEnv) (S : ClientState) (oids : List String)
    (h : ∀ oid ∈ oids, dictContains S.metadata_cache oid = true) :
    get_all_metadata env2 S oids =
      ⟨oids.foldl (fun m oid => match dictLookup S.metadata_cache oid with
        | some md => dictInsert m oid md
        | none => m) [], S, []⟩ := by
  have hunc : oids.filter (fun oid => !dictContains S.metadata_cache oid) = [] := by
    rw [List.filter_eq_nil_iff]
    intro a ha
    simp [h a ha]
  unfold get_all_metadata
  rw [hunc]
  rfl

/-- C6: identifiers already in the resolution cache never appear in the
remote-lookup trace of `get_all_metadata`; and when every identifier of
the list is cached after a first call, a second call with the same list
(under any network environment) returns the identical mapping, leaves
the state unchanged, and launches zero remote lookups. -/
theorem C6_cached_idempotent (env env2 : PassportEnv) (st : ClientState)
    (oids : List String) :
    (∀ oid, dictContains st.metadata_cache oid = true →
      oid ∉ (get_all_metadata env st oids).trace) ∧
    ((∀ oid ∈ oids,
        dictContains (get_all_metadata env st oids).state.metadata_cache oid = true) →
      get_all_metadata env2 (get_all_metadata env st oids).state oids =
        ⟨(get_all_metadata env st oids).mapping,
          (get_all_metadata env st oids).state, []⟩) := by
  constructor
  · intro oid hc hmem
    rw [gam_trace, List.mem_filter] at hmem
    rw [hc] at hmem
    exact Bool.noConfusion hmem.2
  · intro hall
    exact gam_all_cached env2 (get_all_metadata env st oids).state oids hall

/-- Environment used by the C6 witness: every passport request answers
200 with a single object. -/
def envOK : PassportEnv :=
  fun _ => PassportResponse.http 200 (PassportBody.single ⟨some "Name", some "1"⟩)

theorem C6_witness :
    "a" ∉ (get_all_metadata envRaise
      (get_all_metadata envOK initClient ["a"]).state ["a"]).trace ∧
    get_all_metadata envRaise (get_all_metadata envOK initClient ["a"]).state ["a"] =
      ⟨(get_all_metadata envOK initClient ["a"]).mapping,
        (get_all_metadata envOK initClient ["a"]).state, []⟩ := by
  constructor
  · exact (C6_cached_idempotent envRaise envRaise
      (get_all_metadata envOK initClient ["a"]).state ["a"]).1 "a" (by decide)
  · exact (C6_cached_idempotent envOK envRaise initClient ["a"]).2 (by decide)

/-- C9: the uncached partition of `get_all_metadata` preserves
duplicates — an uncached identifier occurring k times in the input list
is looked up remotely k times (it occurs k times in the launched-task
trace), not once per distinct identifier. -/
theorem C9_no_dedup (env : PassportEnv) (st : ClientState) (oids : List String)
    (oid : String) (h : dictContains st.metadata_cache oid = false) :
    ((get_all_metadata env st oids).trace).count oid = oids.count oid := by
  rw [gam_trace]
  exact List.count_filter (by simp [h])

theorem C9_witness :
    ((get_all_metadata envRaise initClient ["a", "a"]).trace).count "a" = 2 := by
  have h := C9_no_dedup envRaise initClient ["a", "a"] "a" rfl
  rw [h]
  decide

/-! ## TabularDecoder: download_csv

The zip member's text is modelled as its list of lines, each line a
list of characters; `pd.read_csv(..., sep=c)` is modelled as
field-splitting each line on `c`. The model keeps pandas' behaviour
that matters structurally: blank lines are skipped, an empty input
raises `EmptyDataError`, a first data row one field wider than the
header silently turns the first column into the index, and any data
row wider than that raises `ParserError`; narrower rows are padded
(NaN cells become empty fields). Field quoting and dtype inference are
not modelled; theorems restrict cells to delimiter-free text where the
two coincide. -/

/-- Splits a character list on a separator character; `[]` splits to
one empty field, matching text-splitting semantics. -/
def splitOnC (sep : Char) : List Char → List (List Char)
  | [] => [[]]
  | c :: cs =>
    if c = sep then [] :: splitOnC sep cs
    else
      match splitOnC sep cs with
      | [] => [[c]]
      | f :: rest => (c :: f) :: rest

/-- Joins fields with a separator character (inverse of `splitOnC` on
separator-free fields). -/
def joinC (sep : Char) : List (List Char) → List Char
  | [] => []
  | [cell] => cell
  | cell :: rest => cell ++ sep :: joinC sep rest

/-- The structured table a successful parse produces: column names and
data rows (header excluded from the row count). -/
structure Table where
  header : List (List Char)
  rows : List (List (List Char))
deriving DecidableEq, Repr

/-- Pads a field list to the expected width with empty fields (pandas
fills missing trailing fields with NaN). -/
def padTo (n : Nat) (fs : List (List Char)) : List (List Char) :=
  fs ++ List.replicate (n - fs.length) []

/-- Parses the data rows against an expected width; a wider row raises
`ParserError`, a narrower one is padded. -/
def parseRows (sep : Char) (n : Nat) : List (List Char) →
    Except String (List (List (List Char)))
  | [] => .ok []
  | l :: ls =>
    let fs := splitOnC sep l
    if fs.length > n then .error "ParserError: too many fields"
    else
      match parseRows sep n ls with
      | .ok rs => .ok (padTo n fs :: rs)
      | .error e => .error e

/-- Model of `pd.read_csv(csv_file, sep=sep)` on the member's lines. -/
def pdReadCsv (sep : Char) (rawLines : List (List Char)) : Except String Table :=
  match rawLines.filter (fun l => !l.isEmpty) with
  | [] => .error "EmptyDataError: No columns to parse from file"
  | h :: rest =>
    let header := splitOnC sep h
    let n := header.length
    match rest with
    | [] => .ok ⟨header, []⟩
    | r1 :: _ =>
      if (splitOnC sep r1).length = n + 1 then
        match parseRows sep (n + 1) rest with
        | .ok rs => .ok ⟨header, rs.map (List.drop 1)⟩
        | .error e => .error e
      else
        match parseRows sep n rest with
        | .ok rs => .ok ⟨header, rs⟩
        | .error e => .error e

/-- One member of the downloaded zip archive. -/
structure ZipEntry where
  name : String
  lines : List (List Char)
deriving DecidableEq

/-- Outcome of one artifact download request: an exception from the
transport, or an HTTP response whose 200-status body is either a
readable zip archive (`some` member list) or bytes `zipfile` rejects
(`none`, raising `BadZipFile`). -/
inductive DlResponse where
  | exn (msg : String)
  | http (status : Nat) (archive : Option (List ZipEntry))

/-- The download endpoint as an environment: OID and version determine
the response (the URL is `oid_version_csv.zip`; a `None` version is
interpolated into the URL as the text `None`, so it is part of the
key). -/
def DlEnv : Type := String → Option String → DlResponse

/-- Model of `NSIClient.download_csv`: non-200 raises, the first zip
member is taken (`namelist()[0]` raises `IndexError` on an empty
archive), the member is parsed with `sep=';'`, and on any parse
exception the stream is rewound and re-parsed with `sep=','`. The
`Except` result stands for the exceptions this method lets escape to
its caller. -/
def download_csv (dl : DlEnv) (oid : String) (version : Option String) :
    Except String Table :=
  match dl oid version with
  | .exn msg => .error msg
  | .http status archive =>
    if status ≠ 200 then .error ("Ошибка загрузки файла: " ++ toString status)
    else
      match archive with
      | none => .error "BadZipFile: File is not a zip file"
      | some [] => .error "IndexError: list index out of range"
      | some (entry :: _) =>
        match pdReadCsv ';' entry.lines with
        | .ok df => .ok df
        | .error _ => pdReadCsv ',' entry.lines

/-- Serialisation of a table as delimiter-separated text (the shape of
the remote CSV exports): one header line then one line per row. -/
def serializeTable (sep : Char) (t : Table) : List (List Char) :=
  joinC sep t.header :: t.rows.map (joinC sep)

/-- A download environment whose every response is a 200 zip archive
with a single member holding the given lines. -/
def singleEntryDl (payload : List (List Char)) : DlEnv :=
  fun _ _ => DlResponse.http 200 (some [⟨"data.csv", payload⟩])

theorem splitOnC_no_sep (sep : Char) (s : List Char) (h : sep ∉ s) :
    splitOnC sep s = [s] := by
  induction s with
  | nil => rfl
  | cons c cs ih =>
    have hc : c ≠ sep := fun he => h (he ▸ List.mem_cons_self c cs)
    have ih' := ih (fun hm => h (List.mem_cons_of_mem c hm))
    simp [splitOnC, hc, ih']

theorem splitOnC_append_cons (sep : Char) (a t : List Char) (h : sep ∉ a) :
    splitOnC sep (a ++ sep :: t) = a :: splitOnC sep t := by
  induction a with
  | nil => simp [splitOnC]
  | cons c cs ih =>
    have hc : c ≠ sep := fun he => h (he ▸ List.mem_cons_self c cs)
    have ih' := ih (fun hm => h (List.mem_cons_of_mem c hm))
    simp [splitOnC, hc, ih']

theorem splitOnC_joinC (sep : Char) (cells : List (List Char))
    (hne : cells ≠ []) (h : ∀ c ∈ cells, sep ∉ c) :
    splitOnC sep (joinC sep cells) = cells := by
  induction cells with
  | nil => exact absurd rfl hne
  | cons c rest ih =>
    cases rest with
    | nil =>
      show splitOnC sep (joinC sep [c]) = [c]
      exact splitOnC_no_sep sep c (h c (List.mem_cons_self c []))
    | cons c2 rest2 =>
      show splitOnC sep (c ++ sep :: joinC sep (c2 :: rest2)) = _
      rw [splitOnC_append_cons sep c _ (h c (List.mem_cons_self c _))]
      rw [ih (by simp) (fun x hx => h x (List.mem_cons_of_mem c hx))]

theorem joinC_ne_nil (sep : Char) (cells : List (List Char))
    (hne : cells ≠ []) (h : ∀ c ∈ cells, c ≠ []) :
    joinC sep cells ≠ [] := by
  cases cells with
  | nil => exact absurd rfl hne
  | cons c rest =>
    cases rest with
    | nil => exact h c (List.mem_cons_self c [])
    | cons c2 rest2 =>
      show c ++ sep :: joinC sep (c2 :: rest2) ≠ []
      cases hc : c with
      | nil => simp
      | cons x xs => simp

theorem padTo_eq_self (n : Nat) (fs : List (List Char)) (h : fs.length = n) :
    padTo n fs = fs := by
  simp [padTo, h]

theorem parseRows_map_join (sep : Char) (n : Nat) (rows : List (List (List Char)))
    (hn : 0 < n) (hlen : ∀ r ∈ rows, r.length = n)
    (hc : ∀ r ∈ rows, ∀ c ∈ r, c ≠ [] ∧ sep ∉ c) :
    parseRows sep n (rows.map (joinC sep)) = .ok rows := by
  induction rows with
  | nil => rfl
  | cons r rest ih =>
    have hrne : r ≠ [] := by
      intro he
      rw [he] at hlen
      have := hlen [] (List.mem_cons_self [] rest)
      simp at this
      omega
    have hsplit : splitOnC sep (joinC sep r) = r :=
      splitOnC_joinC sep r hrne
        (fun c hcm => (hc r (List.mem_cons_self r rest) c hcm).2)
    have hrl : r.length = n := hlen r (List.mem_cons_self r rest)
    simp only [List.map_cons, parseRows, hsplit]
    rw [if_neg (by rw [hrl]; exact Nat.lt_irrefl n)]
    rw [ih (fun x hx => hlen x (List.mem_cons_of_mem r hx))
      (fun x hx => hc x (List.mem_cons_of_mem r hx))]
    rw [padTo_eq_self n r hrl]

theorem not_isEmpty_of_ne_nil {α : Type u} (l : List α) (h : l ≠ []) :
    (!l.isEmpty) = true := by
  cases l with
  | nil => exact absurd rfl h
  | cons x xs => rfl

theorem pdReadCsv_serialize (sep : Char) (t : Table)
    (hh : t.header ≠ []) (hlen : ∀ r ∈ t.rows, r.length = t.header.length)
    (hch : ∀ c ∈ t.header, c ≠ [] ∧ sep ∉ c)
    (hcr : ∀ r ∈ t.rows, ∀ c ∈ r, c ≠ [] ∧ sep ∉ c) :
    pdReadCsv sep (serializeTable sep t) = .ok t := by
  obtain ⟨header, rows⟩ := t
  simp only at hh hlen hch hcr
  have hn : 0 < header.length := List.length_pos.mpr hh
  have hhead : splitOnC sep (joinC sep header) = header :=
    splitOnC_joinC sep header hh (fun c hc => (hch c hc).2)
  have hfilt : (joinC sep header :: rows.map (joinC sep)).filter (fun l => !l.isEmpty)
      = joinC sep header :: rows.map (joinC sep) := by
    rw [List.filter_eq_self]
    intro l hl
    rcases List.mem_cons.mp hl with hl | hl
    · subst hl
      exact not_isEmpty_of_ne_nil _
        (joinC_ne_nil sep header hh (fun c hc => (hch c hc).1))
    · obtain ⟨r, hr, hrl⟩ := List.mem_map.mp hl
      subst hrl
      have hrne : r ≠ [] := by
        intro he
        have h2 := hlen r hr
        rw [he] at h2
        simp at h2
        omega
      exact not_isEmpty_of_ne_nil _
        (joinC_ne_nil sep r hrne (fun c hc => (hcr r hr c hc).1))
  show pdReadCsv sep (joinC sep header :: rows.map (joinC sep)) = _
  unfold pdReadCsv
  rw [hfilt]
  cases rows with
  | nil => simp only [List.map_nil, hhead]
  | cons r rest =>
    have hrl : r.length = header.length := hlen r (List.mem_cons_self r rest)
    have hrne : r ≠ [] := by
      intro he
      rw [he] at hrl
      simp at hrl
      omega
    have hsr : splitOnC sep (joinC sep r) = r :=
      splitOnC_joinC sep r hrne
        (fun c hc => (hcr r (List.mem_cons_self r rest) c hc).2)
    have hp := parseRows_map_join sep header.length (r :: rest) hn hlen hcr
    rw [List.map_cons] at hp
    simp only [List.map_cons, hhead, hsr]
    rw [if_neg (by rw [hrl]; omega)]
    rw [hp]

/-- A table is well formed for the decoder theorems when it has at
least one column, every row has exactly the header's width, and every
cell is non-empty text free of both candidate delimiters (the model
does not cover pandas field quoting). -/
def wellFormed (t : Table) : Prop :=
  t.header ≠ [] ∧ (∀ r ∈ t.rows, r.length = t.header.length) ∧
  (∀ c ∈ t.header, c ≠ [] ∧ ';' ∉ c ∧ ',' ∉ c) ∧
  (∀ r ∈ t.rows, ∀ c ∈ r, c ≠ [] ∧ ';' ∉ c ∧ ',' ∉ c)

theorem serializeTable_single_col (t : Table) (h1 : t.header.length = 1)
    (hlen : ∀ r ∈ t.rows, r.length = t.header.length) (sep sep' : Char) :
    serializeTable sep t = serializeTable sep' t := by
  unfold serializeTable
  have hjoin : ∀ (cells : List (List Char)), cells.length = 1 →
      joinC sep cells = joinC sep' cells := by
    intro cells hc
    obtain ⟨c, hcc⟩ := List.length_eq_one.mp hc
    rw [hcc]
    rfl
  rw [hjoin t.header h1]
  congr 1
  apply List.map_congr_left
  intro r hr
  exact hjoin r (by rw [hlen r hr, h1])

theorem download_csv_singleEntry (payload : List (List Char)) (oid : String)
    (v : Option String) :
    download_csv (singleEntryDl payload) oid v =
      match pdReadCsv ';' payload with
      | .ok df => .ok df
      | .error _ => pdReadCsv ',' payload := rfl

/-- C3 (amended): the decode step recovers the original table from its
semicolon-delimited payload for every well-formed table, and for
single-column tables the comma-delimited payload decodes to the
identical table; for tables of two or more delimiter-free columns the
round trip fails (see the counterexample), because the comma payload
parses without structural error under `sep=';'` as one wide column and
the retry never runs. -/
theorem C3_decoder_round_trip (t : Table) (h : wellFormed t) :
    download_csv (singleEntryDl (serializeTable ';' t)) "oid" (some "v") = .ok t ∧
    (t.header.length = 1 →
      download_csv (singleEntryDl (serializeTable ',' t)) "oid" (some "v") =
        download_csv (singleEntryDl (serializeTable ';' t)) "oid" (some "v")) := by
  obtain ⟨hh, hlen, hch, hcr⟩ := h
  have hser : pdReadCsv ';' (serializeTable ';' t) = .ok t :=
    pdReadCsv_serialize ';' t hh hlen
      (fun c hc => ⟨(hch c hc).1, (hch c hc).2.1⟩)
      (fun r hr c hc => ⟨(hcr r hr c hc).1, (hcr r hr c hc).2.1⟩)
  constructor
  · rw [download_csv_singleEntry, hser]
  · intro h1
    rw [serializeTable_single_col t h1 hlen ',' ';']

/-- C3 counterexample: for the two-column table with header `a`,`b`
and single row `x`,`y`, decoding the semicolon-delimited payload and
decoding the comma-delimited payload of the same table give different
results — the comma payload parses under `sep=';'` as a single column
without structural failure, so the `,` retry never happens. -/
theorem C3_counterexample :
    download_csv (singleEntryDl (serializeTable ';' ⟨[['a'], ['b']], [[['x'], ['y']]]⟩))
        "oid" (some "v") ≠
      download_csv (singleEntryDl (serializeTable ',' ⟨[['a'], ['b']], [[['x'], ['y']]]⟩))
        "oid" (some "v") := by
  intro habs
  have h1 : download_csv (singleEntryDl
      (serializeTable ';' ⟨[['a'], ['b']], [[['x'], ['y']]]⟩)) "oid" (some "v") =
      Except.ok (⟨[['a'], ['b']], [[['x'], ['y']]]⟩ : Table) := rfl
  have h2 : download_csv (singleEntryDl
      (serializeTable ',' ⟨[['a'], ['b']], [[['x'], ['y']]]⟩)) "oid" (some "v") =
      Except.ok (⟨[['a', ',', 'b']], [[['x', ',', 'y']]]⟩ : Table) := rfl
  rw [h1, h2] at habs
  injection habs with heq
  exact absurd heq (by decide)

theorem C3_witness :
    download_csv (singleEntryDl (serializeTable ';' ⟨[['a']], [[['x']], [['y']]]⟩))
        "oid" (some "v") = .ok ⟨[['a']], [[['x']], [['y']]]⟩ ∧
    download_csv (singleEntryDl (serializeTable ',' ⟨[['a']], [[['x']], [['y']]]⟩))
        "oid" (some "v") =
      download_csv (singleEntryDl (serializeTable ';' ⟨[['a']], [[['x']], [['y']]]⟩))
        "oid" (some "v") := by
  have h := C3_decoder_round_trip ⟨[['a']], [[['x']], [['y']]]⟩
    (by unfold wellFormed; decide)
  exact ⟨h.1, h.2 (by decide)⟩

/-! ## BatchFetchOrchestrator: process_oids and async_process_oid -/

/-- Per-identifier report of the `process_oids` loop: metadata were
not obtained, the downloaded table was saved under the derived
filename, or the download/decode raised and the error was reported. -/
inductive Outcome where
  | notResolved (oid : String)
  | saved (oid : String) (filename : String)
  | failed (oid : String) (msg : String)
deriving DecidableEq, Repr

/-- Filename derivation of the source, `oid.replace('.', '_') + ".csv"`;
Python's single-character `str.replace` substitutes every occurrence. -/
def csvFileName (oid : String) : String :=
  String.mk (oid.data.map (fun c => if c = '.' then '_' else c)) ++ ".csv"

/-- Body of the per-OID loop of `process_oids`: skip and report when
the OID is absent from the resolved mapping, otherwise download and
decode, and either save the table (`df.to_csv`, recorded as a write)
or catch the exception and report it. The loop never aborts the
batch. -/
def processItem (dl : DlEnv) (mapping : List (String × Metadata))
    (oid : String) : Outcome × List (String × Table) :=
  match dictLookup mapping oid with
  | none => (.notResolved oid, [])
  | some md =>
    match download_csv dl oid md.version with
    | .ok df => (.saved oid (csvFileName oid), [(csvFileName oid, df)])
    | .error e => (.failed oid e, [])

/-- Result of one `process_oids` run: the per-OID reports in input
order, the CSV files written, and the client state after the single
`get_all_metadata` call. -/
structure BatchOut where
  outcomes : List Outcome
  writes : List (String × Table)
  state : ClientState

/-- Model of `NSIClient.process_oids`: one `get_all_metadata` call,
then the per-OID loop over the input list in order. -/
def process_oids (env : PassportEnv) (dl : DlEnv) (st : ClientState)
    (oids : List String) : BatchOut :=
  let g := get_all_metadata env st oids
  let items := oids.map (processItem dl g.mapping)
  ⟨items.map Prod.fst, (items.map Prod.snd).flatten, g.state⟩

/-- Argument shape of `async_process_oid`: a single OID string or a
list of OIDs. -/
inductive OidArg where
  | one (oid : String)
  | many (oids : List String)

/-- Return value of `async_process_oid`: a DataFrame, a boolean, or
Python's `None`. -/
inductive ProcResult where
  | df (t : Table)
  | boolVal (b : Bool)
  | noneVal
deriving DecidableEq, Repr

/-- Result of one `async_process_oid` call: the returned value, the
CSV files written, and the client state afterwards. -/
structure ProcOut where
  result : ProcResult
  writes : List (String × Table)
  state : ClientState

/-- Model of `NSIClient.async_process_oid`. A list argument delegates
to `process_oids` and returns `True`. A single OID resolves via
`get_all_metadata [oid]`; if resolved, the CSV is downloaded and
either returned as a DataFrame (`to_dataframe`) or written to the
derived filename with `True` returned; a download/decode exception or
a failed resolution returns `None`. -/
def async_process_oid (env : PassportEnv) (dl : DlEnv) (st : ClientState)
    (arg : OidArg) (to_dataframe : Bool) : ProcOut :=
  match arg with
  | .many oids =>
    let b := process_oids env dl st oids
    ⟨.boolVal true, b.writes, b.state⟩
  | .one oid =>
    let g := get_all_metadata env st [oid]
    match dictLookup g.mapping oid with
    | some md =>
      match download_csv dl oid md.version with
      | .ok df =>
        if to_dataframe then ⟨.df df, [], g.state⟩
        else ⟨.boolVal true, [(csvFileName oid, df)], g.state⟩
      | .error _ => ⟨.noneVal, [], g.state⟩
    | none => ⟨.noneVal, [], g.state⟩

/-- Tests whether an outcome reports missing metadata. -/
def isNotResolvedOutcome : Outcome → Bool
  | .notResolved _ => true
  | _ => false

/-- Tests whether an outcome reports a saved file. -/
def isSavedOutcome : Outcome → Bool
  | .saved _ _ => true
  | _ => false

theorem outcome_counts (bad : String) (l : List String) :
    ((l.map (fun oid => if oid = bad then Outcome.notResolved oid
      else Outcome.saved oid (csvFileName oid))).countP
        (fun o => isNotResolvedOutcome o) = l.count bad) ∧
    ((l.map (fun oid => if oid = bad then Outcome.notResolved oid
      else Outcome.saved oid (csvFileName oid))).countP
        (fun o => isSavedOutcome o) = l.length - l.count bad) := by
  induction l with
  | nil => simp
  | cons x xs ih =>
    have hle : xs.count bad ≤ xs.length := List.count_le_length bad xs
    constructor
    · rw [List.map_cons, List.countP_cons, ih.1, List.count_cons]
      by_cases hx : x = bad
      · simp [hx, isNotResolvedOutcome]
      · simp [hx, isNotResolvedOutcome]
    · rw [List.map_cons, List.countP_cons, ih.2, List.count_cons, List.length_cons]
      by_cases hx : x = bad
      · simp only [hx, if_pos rfl, isSavedOutcome, beq_self_eq_true, if_true,
          Bool.false_eq_true, if_false]
        omega
      · simp only [if_neg hx, isSavedOutcome]
        have hbx : (x == bad) = false := by
          rw [beq_eq_false_iff_ne]
          exact hx
        rw [hbx]
        simp
        omega

/-- C10: a list argument (of any length, including lists every one of
whose identifiers fails resolution or download) makes
`async_process_oid` return `True`, ignoring `to_dataframe` and every
per-identifier failure. -/
theorem C10_list_always_true (env : PassportEnv) (dl : DlEnv) (st : ClientState)
    (oids : List String) (to_dataframe : Bool) :
    (async_process_oid env dl st (.many oids) to_dataframe).result =
      .boolVal true := rfl

/-- C8: when an identifier resolves and its download succeeds, the
batch loop reports the file saved under the identifier with every dot
replaced by an underscore and `.csv` appended; concretely,
`1.2.643.5.1.13.13.11.1461` maps to `1_2_643_5_1_13_13_11_1461.csv`. -/
theorem C8_filename_derivation (env : PassportEnv) (dl : DlEnv)
    (st : ClientState) (oid : String) (md : Metadata) (df : Table)
    (hres : dictLookup (get_all_metadata env st [oid]).mapping oid = some md)
    (hdl : download_csv dl oid md.version = .ok df) :
    (process_oids env dl st [oid]).outcomes =
      [Outcome.saved oid (String.mk (oid.data.map
        (fun c => if c = '.' then '_' else c)) ++ ".csv")] ∧
    csvFileName "1.2.643.5.1.13.13.11.1461" = "1_2_643_5_1_13_13_11_1461.csv" := by
  constructor
  · show ([oid].map (processItem dl (get_all_metadata env st [oid]).mapping)).map
      Prod.fst = _
    simp only [List.map_cons, List.map_nil, processItem, hres, hdl]
    rfl
  · decide

/-- C7: in single-identifier mode, a successful resolution and
download return the decoded table directly with no CSV write when
`to_dataframe` is true, and write the derived CSV file returning
`True` when it is false; a failed resolution or a failed
download/decode returns `None` instead of raising. (The
`oid_dictionary.json` side file is rewritten by every
`get_all_metadata` call and is not a CSV artifact write.) -/
theorem C7_single_mode (env : PassportEnv) (dl : DlEnv) (st : ClientState)
    (oid : String) :
    (∀ md df, dictLookup (get_all_metadata env st [oid]).mapping oid = some md →
      download_csv dl oid md.version = .ok df →
      async_process_oid env dl st (.one oid) true =
        ⟨.df df, [], (get_all_metadata env st [oid]).state⟩ ∧
      async_process_oid env dl st (.one oid) false =
        ⟨.boolVal true, [(csvFileName oid, df)],
          (get_all_metadata env st [oid]).state⟩) ∧
    (dictLookup (get_all_metadata env st [oid]).mapping oid = none →
      ∀ b, (async_process_oid env dl st (.one oid) b).result = .noneVal) ∧
    (∀ md e, dictLookup (get_all_metadata env st [oid]).mapping oid = some md →
      download_csv dl oid md.version = .error e →
      ∀ b, (async_process_oid env dl st (.one oid) b).result = .noneVal) := by
  refine ⟨?_, ?_, ?_⟩
  · intro md df hres hdl
    constructor
    · simp only [async_process_oid, hres, hdl, if_true]
    · simp only [async_process_oid, hres, hdl, Bool.false_eq_true, if_false]
  · intro hres b
    simp only [async_process_oid, hres]
  · intro md e hres hdl b
    simp only [async_process_oid, hres, hdl]

/-- C4: in a batch where every identifier is uncached, exactly one
identifier fails resolution and every other identifier resolves and
downloads successfully, `process_oids` reports, in input order, a
saved file for every succeeding identifier and the single
metadata-not-obtained failure attributed to the failing identifier:
N-1 successes, exactly 1 failure, no outcome lost or misattributed,
and the batch never aborts. -/
theorem C4_batch_isolation (env : PassportEnv) (dl : DlEnv) (st : ClientState)
    (oids : List String) (bad : String)
    (hnc : ∀ oid ∈ oids, dictContains st.metadata_cache oid = false)
    (hone : oids.count bad = 1)
    (hbad : envSuccess env bad = false)
    (hok : ∀ oid ∈ oids, oid ≠ bad → envSuccess env oid = true ∧
      ∃ md df, mmMeta env oid = some md ∧
        download_csv dl oid md.version = .ok df) :
    (process_oids env dl st oids).outcomes =
      oids.map (fun oid => if oid = bad then Outcome.notResolved oid
        else Outcome.saved oid (csvFileName oid)) ∧
    (process_oids env dl st oids).outcomes.countP
      (fun o => isNotResolvedOutcome o) = 1 ∧
    (process_oids env dl st oids).outcomes.countP
      (fun o => isSavedOutcome o) = oids.length - 1 := by
  have hmap : (process_oids env dl st oids).outcomes =
      oids.map (fun oid => if oid = bad then Outcome.notResolved oid
        else Outcome.saved oid (csvFileName oid)) := by
    show (oids.map (processItem dl (get_all_metadata env st oids).mapping)).map
      Prod.fst = _
    rw [List.map_map]
    apply List.map_congr_left
    intro oid hmem
    by_cases hx : oid = bad
    · subst hx
      have hnone : dictLookup (get_all_metadata env st oids).mapping oid = none := by
        rw [gam_mapping_lookup, if_pos hmem, gam_cache_lookup,
          if_neg (by intro ⟨_, _, h3⟩; rw [hbad] at h3; exact Bool.noConfusion h3)]
        exact (dictContains_eq_false _ _).mp (hnc oid hmem)
      simp [Function.comp, processItem, hnone]
    · obtain ⟨hsucc, md, df, hmd, hdf⟩ := hok oid hmem hx
      have hsome : dictLookup (get_all_metadata env st oids).mapping oid = some md := by
        rw [gam_mapping_lookup, if_pos hmem, gam_cache_lookup,
          if_pos ⟨hmem, hnc oid hmem, hsucc⟩]
        exact hmd
      simp [Function.comp, processItem, hsome, hdf, hx]
  refine ⟨hmap, ?_, ?_⟩
  · rw [hmap, (outcome_counts bad oids).1, hone]
  · rw [hmap, (outcome_counts bad oids).2, hone]

/-- Download environment for the witnesses: every response is a 200
archive with one member that decodes to the one-column table with
header `a` and single row `x`. -/
def dlOKSmall : DlEnv :=
  fun _ _ => DlResponse.http 200 (some [⟨"d.csv", [['a'], ['x']]⟩])

/-- Environment for the C4 witness: identifier `b` gets HTTP 500,
every other identifier resolves to shortName `N`, version `1`. -/
def envC4 : PassportEnv := fun o =>
  if o = "b" then PassportResponse.http 500 PassportBody.other
  else PassportResponse.http 200 (PassportBody.single ⟨some "N", some "1"⟩)

theorem C4_witness :
    (process_oids envC4 dlOKSmall initClient ["a", "b"]).outcomes =
      ["a", "b"].map (fun oid => if oid = "b" then Outcome.notResolved oid
        else Outcome.saved oid (csvFileName oid)) ∧
    (process_oids envC4 dlOKSmall initClient ["a", "b"]).outcomes.countP
      (fun o => isNotResolvedOutcome o) = 1 ∧
    (process_oids envC4 dlOKSmall initClient ["a", "b"]).outcomes.countP
      (fun o => isSavedOutcome o) = (["a", "b"] : List String).length - 1 :=
  C4_batch_isolation envC4 dlOKSmall initClient ["a", "b"] "b"
    (by decide) (by decide) (by decide)
    (by
      intro oid hmem hne
      rcases List.mem_cons.mp hmem with h | h
      · subst h
        exact ⟨by decide, ⟨"N", some "1"⟩, ⟨[['a']], [[['x']]]⟩, by decide, rfl⟩
      · rw [List.mem_singleton] at h
        exact absurd h hne)

theorem C7_witness :
    async_process_oid envOK dlOKSmall initClient (.one "a") true =
      ⟨.df ⟨[['a']], [[['x']]]⟩, [], (get_all_metadata envOK initClient ["a"]).state⟩ ∧
    async_process_oid envOK dlOKSmall initClient (.one "a") false =
      ⟨.boolVal true, [(csvFileName "a", ⟨[['a']], [[['x']]]⟩)],
        (get_all_metadata envOK initClient ["a"]).state⟩ :=
  (C7_single_mode envOK dlOKSmall initClient "a").1 ⟨"Name", some "1"⟩
    ⟨[['a']], [[['x']]]⟩ rfl rfl

theorem C8_witness :
    (process_oids envOK dlOKSmall initClient ["1.2.643.5.1.13.13.11.1461"]).outcomes =
      [Outcome.saved "1.2.643.5.1.13.13.11.1461" "1_2_643_5_1_13_13_11_1461.csv"] ∧
    csvFileName "1.2.643.5.1.13.13.11.1461" = "1_2_643_5_1_13_13_11_1461.csv" := by
  have h := C8_filename_derivation envOK dlOKSmall initClient
    "1.2.643.5.1.13.13.11.1461" ⟨"Name", some "1"⟩ ⟨[['a']], [[['x']]]⟩ rfl rfl
  refine ⟨?_, h.2⟩
  rw [h.1]
  decide

end NSI
